import Mathlib

/-
Shallow embedding of the two image-processing utilities of this
repository: src/media/create_app_icon.py (gradient generator, logo
recolorizer, compositor) and src/utils/fix_white_space.py (whitespace
trimmer).

Modelling conventions:
- pixels are 8-bit channel values, modelled as Nat;
- an image is a list of rows (top row first), a row a list of pixels;
- Python's true division and the float arithmetic of the scripts are
  modelled with exact rationals; Python's int() truncation is modelled
  with Int.floor (the two agree on every value the scripts can reach,
  since all truncated quantities there are non-negative, and in the one
  place a negative value could arise - preservePixel on out-of-range
  channels - both land in the same branch);
- the PIL library calls that do not compute pixel values in the source
  (LANCZOS resizing, thumbnail) are parameters of the embedding;
- PIL's paste-with-mask is modelled per band with its MULDIV255
  rounding; Image.new fills with black.
-/

set_option maxRecDepth 4000

/-- An opaque pixel (PIL mode RGB). -/
structure RGB where
  r : Nat
  g : Nat
  b : Nat

deriving instance DecidableEq, Repr for RGB

/-- A pixel with an alpha band (PIL mode RGBA); a = 0 is fully
transparent, a = 255 fully opaque. -/
structure RGBA where
  r : Nat
  g : Nat
  b : Nat
  a : Nat

deriving instance DecidableEq, Repr for RGBA

/-- create_app_icon.py, create_gradient, one channel:
ratio = (x + y) / (2 * size); int(start * (1 - ratio) + end * ratio). -/
def gradChannel (size a b x y : Nat) : Nat :=
  let ratio : ℚ := (x + y : ℚ) / (2 * size)
  (Int.floor ((a : ℚ) * (1 - ratio) + (b : ℚ) * ratio)).toNat

/-- create_app_icon.py lines 28-33: the pixel written at (x, y). -/
def gradPixel (size : Nat) (c0 c1 : RGB) (x y : Nat) : RGB :=
  ⟨gradChannel size c0.r c1.r x y, gradChannel size c0.g c1.g x y,
   gradChannel size c0.b c1.b x y⟩

/-- create_app_icon.py lines 22-35: the size × size gradient image. -/
def create_gradient (size : Nat) (c0 c1 : RGB) : List (List RGB) :=
  (List.range size).map (fun y => (List.range size).map (fun x => gradPixel size c0 c1 x y))

def ICON_SIZE : Nat := 1024

def LOGO_SIZE : Nat := 920

def GRADIENT_START : RGB := ⟨102, 126, 234⟩

def GRADIENT_END : RGB := ⟨118, 75, 162⟩

/-- The pixel of an RGB image at column x, row y. -/
def pixelAt (img : List (List RGB)) (x y : Nat) : RGB :=
  (img.getD y []).getD x ⟨0, 0, 0⟩

/-- create_app_icon.py lines 50-65, convert_blue_to_white per-pixel rule:
brightness = (r + g + b) / 3; if brightness > 240 the pixel becomes
transparent white, otherwise opacity = int(255 - brightness) boosted by
min(255, int(opacity * 1.5)). -/
def bluePixel (p : RGBA) : RGBA :=
  let brightness : ℚ := ((p.r : ℚ) + p.g + p.b) / 3
  if 240 < brightness then
    ⟨255, 255, 255, 0⟩
  else
    let op1 : ℤ := Int.floor ((255 : ℚ) - brightness)
    let opacity : ℤ := min 255 (Int.floor ((op1 : ℚ) * 1.5))
    ⟨255, 255, 255, opacity.toNat⟩

/-- create_app_icon.py lines 38-67: the whole-image pass (the source
converts the input to RGBA first and then rewrites every pixel). -/
def convert_blue_to_white (img : List (List RGBA)) : List (List RGBA) :=
  img.map (fun row => row.map bluePixel)

/-- create_app_icon.py lines 82-108, convert_to_white_preserve_shape
per-pixel rule: is_white_bg = r > 245 and g > 245 and b > 245;
avg_diff = (255-r + 255-g + 255-b) / 3; opacity = int(min(255,
avg_diff * 2)); kept only when opacity > 10.  (max_diff and
blue_intensity are computed in the source but never used.) -/
def preservePixel (p : RGBA) : RGBA :=
  if 245 < p.r ∧ 245 < p.g ∧ 245 < p.b then
    ⟨0, 0, 0, 0⟩
  else
    let avg_diff : ℚ := ((255 - (p.r : ℚ)) + (255 - (p.g : ℚ)) + (255 - (p.b : ℚ))) / 3
    let opacity : ℤ := Int.floor (min (255 : ℚ) (avg_diff * 2))
    if 10 < opacity then ⟨255, 255, 255, opacity.toNat⟩ else ⟨0, 0, 0, 0⟩

/-- create_app_icon.py lines 70-110: the whole-image pass. -/
def convert_to_white_preserve_shape (img : List (List RGBA)) : List (List RGBA) :=
  img.map (fun row => row.map preservePixel)

/-- Image.convert from RGB to RGBA: alpha becomes fully opaque. -/
def toRGBA (c : RGB) : RGBA := ⟨c.r, c.g, c.b, 255⟩

/-- PIL's MULDIV255 rounding used by paste-with-mask:
tmp = a * b + 128; ((tmp >> 8) + tmp) >> 8. -/
def muldiv255 (a b : Nat) : Nat :=
  let t := a * b + 128
  (t / 256 + t) / 256

/-- One band of PIL's paste blending through a mask value m. -/
def blendChannel (m bg fg : Nat) : Nat := muldiv255 bg (255 - m) + muldiv255 fg m

/-- PIL paste blending of a full RGBA pixel, masked by the pasted
pixel's own alpha band. -/
def blendPixel (bg fg : RGBA) : RGBA :=
  ⟨blendChannel fg.a bg.r fg.r, blendChannel fg.a bg.g fg.g,
   blendChannel fg.a bg.b fg.b, blendChannel fg.a bg.a fg.a⟩

/-- background.paste(logo, (ox, oy), logo): inside the pasted box the
canvas pixel is blended with the logo pixel through the logo's alpha;
every pixel outside the box is left untouched. -/
def pasteMask (canvas logo : List (List RGBA)) (ox oy : Nat) : List (List RGBA) :=
  (List.range canvas.length).map (fun y =>
    let row := canvas.getD y []
    (List.range row.length).map (fun x =>
      if oy ≤ y ∧ y < oy + logo.length ∧ ox ≤ x ∧ x < ox + (logo.getD (y - oy) []).length then
        blendPixel (row.getD x ⟨0, 0, 0, 0⟩) ((logo.getD (y - oy) []).getD (x - ox) ⟨0, 0, 0, 0⟩)
      else row.getD x ⟨0, 0, 0, 0⟩))

/-- Image.convert from RGBA back to RGB: the alpha band is dropped. -/
def toRGBImage (img : List (List RGBA)) : List (List RGB) :=
  img.map (fun row => row.map (fun p => ⟨p.r, p.g, p.b⟩))

/-- create_app_icon.py lines 140-151: centre offsets by floor division,
convert the canvas to RGBA, paste the (already recoloured and resized)
logo with itself as mask, convert back to RGB. -/
def compositeIcon (iconSize : Nat) (background : List (List RGB)) (logo : List (List RGBA)) :
    List (List RGB) :=
  let lx := (iconSize - (logo.getD 0 []).length) / 2
  let ly := (iconSize - logo.length) / 2
  toRGBImage (pasteMask (background.map (fun row => row.map toRGBA)) logo lx ly)

/-- create_app_icon.py main, lines 121-151: gradient background, the
preserve-shape recolouring, the external LANCZOS thumbnail resize
(a parameter of the embedding), then compositing. -/
def mainIcon (thumb : List (List RGBA) → List (List RGBA)) (logo : List (List RGBA)) :
    List (List RGB) :=
  compositeIcon ICON_SIZE (create_gradient ICON_SIZE GRADIENT_START GRADIENT_END)
    (thumb (convert_to_white_preserve_shape logo))

/-- fix_white_space.py lines 45-46, 60-61: pixels counted as white have
all three channels > 250. -/
def whiteCount (row : List RGB) : Nat :=
  row.countP (fun p => decide (250 < p.r ∧ 250 < p.g ∧ 250 < p.b))

/-- white_ratio = white_count / len(row_pixels). -/
def whiteRatio (row : List RGB) : ℚ := (whiteCount row : ℚ) / row.length

/-- fix_white_space.py line 44: bottom_avg = sum(sum(p)) / (len * 3). -/
def bottomAvg (row : List RGB) : ℚ :=
  let s : Nat := (row.map (fun p => p.r + p.g + p.b)).sum
  (s : ℚ) / (row.length * 3)

/-- fix_white_space.py line 49: the bottom row counts as white when
bottom_avg > 240 or bottom_white_ratio > 0.8. -/
def bottomIsWhite (row : List RGB) : Prop :=
  240 < bottomAvg row ∨ 0.8 < whiteRatio row

instance (row : List RGB) : Decidable (bottomIsWhite row) :=
  decidable_of_iff
    (720 * row.length < (row.map (fun p => p.r + p.g + p.b)).sum
      ∨ 4 * row.length < 5 * whiteCount row)
    (by
      simp only [bottomIsWhite, bottomAvg, whiteRatio]
      rcases Nat.eq_zero_or_pos row.length with h0 | hpos
      · have hr : row = [] := List.length_eq_zero.mp h0
        subst hr
        norm_num [whiteCount]
      · have hn : (0 : ℚ) < (row.length : ℚ) := by exact_mod_cast hpos
        have h3 : (0 : ℚ) < (row.length : ℚ) * 3 := by positivity
        rw [lt_div_iff₀ h3, lt_div_iff₀ hn]
        constructor
        · rintro (h | h)
          · left
            have h2 : (720 : ℚ) * row.length
                < (((row.map (fun p => p.r + p.g + p.b)).sum : ℕ) : ℚ) := by exact_mod_cast h
            linarith
          · right
            have h2 : (4 : ℚ) * row.length < 5 * (whiteCount row : ℚ) := by exact_mod_cast h
            linarith
        · rintro (h | h)
          · left
            have h2 : (720 : ℚ) * row.length
                < (((row.map (fun p => p.r + p.g + p.b)).sum : ℕ) : ℚ) := by linarith
            exact_mod_cast h2
          · right
            have h2 : (4 : ℚ) * row.length < 5 * (whiteCount row : ℚ) := by linarith
            exact_mod_cast h2)

/-- fix_white_space.py lines 55-58: avg_brightness of a scanned row,
computed channel-average by channel-average. -/
def rowAvgBrightness (row : List RGB) : ℚ :=
  let n : ℚ := row.length
  let sr : Nat := (row.map RGB.r).sum
  let sg : Nat := (row.map RGB.g).sum
  let sb : Nat := (row.map RGB.b).sum
  ((sr : ℚ) / n + (sg : ℚ) / n + (sb : ℚ) / n) / 3

/-- fix_white_space.py line 64: a scanned row is content (NOT white)
when avg_brightness < 240 and white_ratio < 0.8 - both strict. -/
def rowIsContent (row : List RGB) : Prop :=
  rowAvgBrightness row < 240 ∧ whiteRatio row < 0.8

instance (row : List RGB) : Decidable (rowIsContent row) :=
  decidable_of_iff
    (row.length = 0 ∨
      ((row.map RGB.r).sum + (row.map RGB.g).sum + (row.map RGB.b).sum < 720 * row.length
        ∧ 5 * whiteCount row < 4 * row.length))
    (by
      simp only [rowIsContent, rowAvgBrightness, whiteRatio]
      rcases Nat.eq_zero_or_pos row.length with h0 | hpos
      · have hr : row = [] := List.length_eq_zero.mp h0
        subst hr
        norm_num [whiteCount]
      · have hn : (0 : ℚ) < (row.length : ℚ) := by exact_mod_cast hpos
        rw [div_add_div_same, div_add_div_same, div_div, div_lt_iff₀ (by positivity),
          div_lt_iff₀ hn]
        constructor
        · rintro (h | ⟨h1, h2⟩)
          · exact absurd h (by omega)
          · constructor
            · have h3 : (((row.map RGB.r).sum : ℕ) : ℚ) + (((row.map RGB.g).sum : ℕ) : ℚ)
                  + (((row.map RGB.b).sum : ℕ) : ℚ) < 720 * row.length := by exact_mod_cast h1
              linarith
            · have h3 : (5 : ℚ) * (whiteCount row : ℚ) < 4 * row.length := by exact_mod_cast h2
              linarith
        · rintro ⟨h1, h2⟩
          right
          constructor
          · have h3 : (((row.map RGB.r).sum : ℕ) : ℚ) + (((row.map RGB.g).sum : ℕ) : ℚ)
                + (((row.map RGB.b).sum : ℕ) : ℚ) < 720 * row.length := by linarith
            exact_mod_cast h3
          · have h3 : (5 : ℚ) * (whiteCount row : ℚ) < 4 * row.length := by linarith
            exact_mod_cast h3)

/-- The row classification as claim C2 words it: content iff
avg_brightness ≤ 240 and white_ratio ≤ 0.8 (non-strict). -/
def rowIsContentClaim (row : List RGB) : Prop :=
  rowAvgBrightness row ≤ 240 ∧ whiteRatio row ≤ 0.8

instance (row : List RGB) : Decidable (rowIsContentClaim row) :=
  decidable_of_iff
    (row.length = 0 ∨
      ((row.map RGB.r).sum + (row.map RGB.g).sum + (row.map RGB.b).sum ≤ 720 * row.length
        ∧ 5 * whiteCount row ≤ 4 * row.length))
    (by
      simp only [rowIsContentClaim, rowAvgBrightness, whiteRatio]
      rcases Nat.eq_zero_or_pos row.length with h0 | hpos
      · have hr : row = [] := List.length_eq_zero.mp h0
        subst hr
        norm_num [whiteCount]
      · have hn : (0 : ℚ) < (row.length : ℚ) := by exact_mod_cast hpos
        rw [div_add_div_same, div_add_div_same, div_div, div_le_iff₀ (by positivity),
          div_le_iff₀ hn]
        constructor
        · rintro (h | ⟨h1, h2⟩)
          · exact absurd h (by omega)
          · constructor
            · have h3 : (((row.map RGB.r).sum : ℕ) : ℚ) + (((row.map RGB.g).sum : ℕ) : ℚ)
                  + (((row.map RGB.b).sum : ℕ) : ℚ) ≤ 720 * row.length := by exact_mod_cast h1
              linarith
            · have h3 : (5 : ℚ) * (whiteCount row : ℚ) ≤ 4 * row.length := by exact_mod_cast h2
              linarith
        · rintro ⟨h1, h2⟩
          right
          constructor
          · have h3 : (((row.map RGB.r).sum : ℕ) : ℚ) + (((row.map RGB.g).sum : ℕ) : ℚ)
                + (((row.map RGB.b).sum : ℕ) : ℚ) ≤ 720 * row.length := by linarith
            exact_mod_cast h3
          · have h3 : (5 : ℚ) * (whiteCount row : ℚ) ≤ 4 * row.length := by linarith
            exact_mod_cast h3)

/-- fix_white_space.py line 51: the row indices visited by
range(height - 1, max(0, height - 100), -1), in visiting order
(height - 1 first, counting down; the stop index is excluded). -/
def contentRowsTested (h : Nat) : List Nat :=
  (List.range' (h - 100 + 1) (h - 1 - (h - 100))).reverse

/-- The scanning loop of lines 51-66: the first visited row that is
content yields content_bottom = y + 1 (then break); otherwise None. -/
def scanFrom (img : List (List RGB)) : List Nat → Option Nat
  | [] => none
  | y :: ys => if rowIsContent (img.getD y []) then some (y + 1) else scanFrom img ys

/-- content_bottom as computed by the scan (None when no visited row is
content). -/
def findContentBottom (img : List (List RGB)) : Option Nat :=
  scanFrom img (contentRowsTested img.length)

/-- Insert into a sorted list of naturals (ascending). -/
def insertNat (x : Nat) : List Nat → List Nat
  | [] => [x]
  | y :: ys => if x ≤ y then x :: y :: ys else y :: insertNat x ys

/-- Python's sorted() on a list of naturals. -/
def sortNat : List Nat → List Nat
  | [] => []
  | x :: xs => insertNat x (sortNat xs)

/-- fix_white_space.py lines 87-98: sorted(channel)[len // 2]. -/
def medianChannel (l : List Nat) : Nat := (sortNat l).getD (l.length / 2) 0

/-- The per-channel median colour of a pixel list (each channel sorted
and selected independently). -/
def medianColor (ps : List RGB) : RGB :=
  ⟨medianChannel (ps.map RGB.r), medianChannel (ps.map RGB.g), medianChannel (ps.map RGB.b)⟩

/-- fix_white_space.py lines 78-80: the sample window is the rows from
sample_start = max(0, content_bottom - 20) up to (excluding)
content_bottom, flattened row-major by getdata(). -/
def samplePixels (img : List (List RGB)) (cb : Nat) : List RGB :=
  ((img.drop (cb - 20)).take (cb - (cb - 20))).flatten

/-- fix_white_space.py line 83: the kept pixels satisfy 50 < sum(p) < 600. -/
def midTone (p : RGB) : Bool := decide (50 < p.r + p.g + p.b ∧ p.r + p.g + p.b < 600)

/-- fix_white_space.py lines 77-98: the fill colour; the filtered
median is used only when more than 50 pixels survive the filter. -/
def bg_color (img : List (List RGB)) (cb : Nat) : RGB :=
  let sample_pixels := samplePixels img cb
  let bg_pixels := sample_pixels.filter midTone
  if 50 < bg_pixels.length then medianColor bg_pixels else medianColor sample_pixels

/-- The fill-colour rule as the amended claim C3 words it: exclude
pixels whose channel sum is ≤ 50 or ≥ 600; fall back to the median of
the unfiltered sample exactly when at most 50 pixels survive. -/
def bg_colorAmended (img : List (List RGB)) (cb : Nat) : RGB :=
  let sample := samplePixels img cb
  let survivors := sample.filter (fun p => !decide (p.r + p.g + p.b ≤ 50 ∨ 600 ≤ p.r + p.g + p.b))
  if survivors.length ≤ 50 then medianColor sample else medianColor survivors

/-- Row padding used to model pasting a narrower or wider content block
into the fresh RGB canvas (Image.new fills with black); after the
phase-1 resize the widths agree and this is the identity on rows. -/
def padTo (tw : Nat) (row : List RGB) : List RGB :=
  row.take tw ++ List.replicate (tw - row.length) ⟨0, 0, 0⟩

/-- fix_white_space.py lines 69-104: the saved image when a content
boundary cb was found - the first cb rows of the input pasted at the
top of a fresh (tw, th) canvas, the rest a solid block of bg. -/
def filledImage (tw th cb : Nat) (img : List (List RGB)) (bg : RGB) : List (List RGB) :=
  (List.range th).map (fun i => if i < cb then padTo tw (img.getD i []) else List.replicate tw bg)

/-- fix_white_space.py lines 37-111, phases 2 and 3 on the (already
normalized) image: returns the Python return value and the final file
contents.  False paths write nothing, so the file stays as given. -/
def detectAndFill (tw th : Nat) (img : List (List RGB)) : Bool × List (List RGB) :=
  let bottomRow := img.getD (img.length - 1) []
  let content_bottom : Option Nat :=
    if bottomIsWhite bottomRow then findContentBottom img else none
  match content_bottom with
  | some cb =>
      if 0 < cb ∧ cb < th then (true, filledImage tw th cb img (bg_color img cb))
      else (false, img)
  | none => (false, img)

/-- fix_white_space.py lines 26-35, phase 1: if (width, height) differs
from the target, resize (external LANCZOS resampling, a parameter) and
persist; otherwise the image is left alone. -/
def normalizeDims (resample : Nat → Nat → List (List RGB) → List (List RGB))
    (tw th : Nat) (img : List (List RGB)) : List (List RGB) :=
  if (img.getD 0 []).length ≠ tw ∨ img.length ≠ th then resample tw th img else img

/-- remove_white_space: phase 1 then phases 2-3; the second component
is the final contents of the image file. -/
def remove_white_space (resample : Nat → Nat → List (List RGB) → List (List RGB))
    (tw th : Nat) (img : List (List RGB)) : Bool × List (List RGB) :=
  detectAndFill tw th (normalizeDims resample tw th img)

/-- The per-pixel rule exactly as claim C4 words it, with rounding
(round = nearest integer) in place of the code's truncation. -/
def preservePixelClaim (p : RGBA) : RGBA :=
  if 245 < p.r ∧ 245 < p.g ∧ 245 < p.b then
    ⟨0, 0, 0, 0⟩
  else
    let avg_deficit : ℚ := ((255 - (p.r : ℚ)) + (255 - (p.g : ℚ)) + (255 - (p.b : ℚ))) / 3
    let opacity : ℤ := min 255 (round (2 * avg_deficit))
    if opacity ≤ 10 then ⟨0, 0, 0, 0⟩ else ⟨255, 255, 255, opacity.toNat⟩

/-- The per-pixel rule exactly as claim C5 words it, with a single
rounding of (255 - brightness) * 1.5. -/
def bluePixelClaim (p : RGBA) : RGBA :=
  let brightness : ℚ := ((p.r : ℚ) + p.g + p.b) / 3
  if 240 < brightness then
    ⟨255, 255, 255, 0⟩
  else
    ⟨255, 255, 255, (min 255 (round (((255 : ℚ) - brightness) * 1.5))).toNat⟩

/-- A three-row, one-column image: white bottom row, a (240,240,240)
row above it (average brightness exactly 240), white top row. -/
def cImgB : List (List RGB) := [[⟨255, 255, 255⟩], [⟨240, 240, 240⟩], [⟨255, 255, 255⟩]]

/-- A one-row, 100-pixel image: 50 mid-tone pixels (100,100,100) and 50
near-white pixels (255,255,255). -/
def cImgC : List (List RGB) :=
  [List.replicate 50 ⟨100, 100, 100⟩ ++ List.replicate 50 ⟨255, 255, 255⟩]

/-- A one-column, 101-row image: white everywhere except the single
black pixel in row 1 (which is exactly 100 rows above the bottom row). -/
def cImgA : List (List RGB) :=
  [[⟨255, 255, 255⟩]] ++ [[⟨0, 0, 0⟩]] ++ List.replicate 99 [⟨255, 255, 255⟩]

/-- Floor of a rational n/d with natural n, d is natural division. -/
lemma floor_natCast_div (n d : Nat) : Int.floor ((n : ℚ) / (d : ℚ)) = (n / d : Nat) := by
  rcases Nat.eq_zero_or_pos d with hd | hd
  · subst hd; simp
  · have hq : (0 : ℚ) < (d : ℚ) := by exact_mod_cast hd
    have hdm := Nat.div_add_mod n d
    have hmod := Nat.mod_lt n hd
    have h2 : n < d * (n / d) + d := by
      calc n = d * (n / d) + n % d := hdm.symm
        _ < d * (n / d) + d := Nat.add_lt_add_left hmod _
    have h3 : n < (n / d + 1) * d := by
      have he : (n / d + 1) * d = d * (n / d) + d := by ring
      rw [he]
      exact h2
    rw [Int.floor_eq_iff]
    constructor
    · rw [le_div_iff₀ hq]
      exact_mod_cast Nat.div_mul_le_self n d
    · rw [div_lt_iff₀ hq]
      push_cast
      exact_mod_cast h3

/-- getD of a map over List.range, index in range. -/
lemma getD_range_map {α : Type} (f : Nat → α) (n i : Nat) (d : α) (h : i < n) :
    ((List.range n).map f).getD i d = f i := by
  simp [List.getD_eq_getElem?_getD, List.getElem?_range, h]

/-- Mapping a function over every row preserves every row length. -/
lemma getD_map_map_length {α β : Type} (l : List (List α)) (f : α → β) (i : Nat) :
    ((l.map (fun row => row.map f)).getD i []).length = (l.getD i []).length := by
  simp only [List.getD_eq_getElem?_getD, List.getElem?_map]
  cases h : l[i]? <;> simp

/-- getD of a row-mapped list of lists, index in range. -/
lemma getD_map_getD {α β : Type} (l : List (List α)) (f : α → β) (i : Nat) (h : i < l.length) :
    (l.map (fun row => row.map f)).getD i [] = (l.getD i []).map f := by
  simp only [List.getD_eq_getElem?_getD, List.getElem?_map]
  rw [List.getElem?_eq_getElem h]
  simp

/-- getD of a mapped row, index in range. -/
lemma getD_map_elem {α β : Type} (row : List α) (f : α → β) (x : Nat) (hx : x < row.length)
    (d : α) (d2 : β) : (row.map f).getD x d2 = f (row.getD x d) := by
  simp only [List.getD_eq_getElem?_getD, List.getElem?_map]
  rw [List.getElem?_eq_getElem hx]
  simp

/-- C2 (amended): in the boundary-detection scan loop a row counts as
content exactly when its average brightness is strictly below 240 AND
its white-pixel fraction is strictly below 0.8; equivalently it is
treated as white exactly when its average brightness is ≥ 240 OR its
white-pixel fraction is ≥ 0.8 (so rows at exactly 240 or exactly 0.8
are treated as white, not as content). -/
theorem trimmer_row_whiteness (row : List RGB) :
    (rowIsContent row ↔ rowAvgBrightness row < 240 ∧ whiteRatio row < 0.8)
  ∧ (¬ rowIsContent row ↔ 240 ≤ rowAvgBrightness row ∨ 0.8 ≤ whiteRatio row) := by
  constructor
  · exact Iff.rfl
  · unfold rowIsContent
    constructor
    · intro h
      rcases le_or_lt 240 (rowAvgBrightness row) with h1 | h1
      · exact Or.inl h1
      · rcases le_or_lt (0.8 : ℚ) (whiteRatio row) with h2 | h2
        · exact Or.inr h2
        · exact absurd ⟨h1, h2⟩ h
    · rintro (h | h) ⟨h1, h2⟩
      · exact absurd h (not_le.mpr h1)
      · exact absurd h (not_le.mpr h2)

/-- C2 counterexample: the row [(240,240,240)] has average brightness
exactly 240 and white-pixel fraction 0, so C2 as stated classifies it
as content; the code's strict test classifies it as white, and a scan
over cImgB (whose bottom row is white) therefore finds no boundary and
changes nothing. -/
theorem trimmer_row_whiteness_cex :
    rowIsContentClaim [(⟨240, 240, 240⟩ : RGB)]
  ∧ ¬ rowIsContent [(⟨240, 240, 240⟩ : RGB)]
  ∧ bottomIsWhite (cImgB.getD 2 [])
  ∧ detectAndFill 1 3 cImgB = (false, cImgB) := by decide

/-- C3 (amended): the fill colour samples the up-to-20 rows immediately
above the boundary, excludes pixels with channel sum ≤ 50 or ≥ 600,
takes the per-channel median of the survivors, and falls back to the
per-channel median of the unfiltered sample exactly when AT MOST 50
pixels (i.e. 50 or fewer, not "fewer than 50") survive the filter. -/
theorem trimmer_fill_estimation (img : List (List RGB)) (cb : Nat) :
    bg_color img cb = bg_colorAmended img cb := by
  simp only [bg_color, bg_colorAmended]
  have hfil : (samplePixels img cb).filter midTone
      = (samplePixels img cb).filter
          (fun p => !decide (p.r + p.g + p.b ≤ 50 ∨ 600 ≤ p.r + p.g + p.b)) := by
    apply List.filter_congr
    intro p _
    unfold midTone
    rw [← decide_not, decide_eq_decide]
    omega
  rw [← hfil]
  rcases Nat.lt_or_ge 50 ((samplePixels img cb).filter midTone).length with h | h
  · rw [if_pos h, if_neg (by omega)]
  · rw [if_neg (by omega), if_pos (by omega)]

/-- C3 counterexample: exactly 50 pixels survive the outlier filter
(not "fewer than 50"), yet the code takes the fallback: the fill
colour is the unfiltered median (255,255,255), not the filtered median
(100,100,100) the claim's condition would give. -/
theorem trimmer_fill_estimation_cex :
    ((samplePixels cImgC 1).filter midTone).length = 50
  ∧ medianColor ((samplePixels cImgC 1).filter midTone) = ⟨100, 100, 100⟩
  ∧ bg_color cImgC 1 = ⟨255, 255, 255⟩ := by decide

/-- C10: the recolouring step main actually invokes is
convert_to_white_preserve_shape (the non-white-detection policy), so
the produced icon is determined by that policy; and the two policies
are genuinely different functions (they disagree on a pure-white
pixel), so the choice matters. -/
theorem main_recolor_choice (thumb : List (List RGBA) → List (List RGBA))
    (logo : List (List RGBA)) :
    mainIcon thumb logo
      = compositeIcon ICON_SIZE (create_gradient ICON_SIZE GRADIENT_START GRADIENT_END)
          (thumb (convert_to_white_preserve_shape logo))
  ∧ convert_to_white_preserve_shape [[⟨255, 255, 255, 255⟩]]
      ≠ convert_blue_to_white [[⟨255, 255, 255, 255⟩]] :=
  ⟨rfl, by
    have hp : preservePixel ⟨255, 255, 255, 255⟩ = ⟨0, 0, 0, 0⟩ := by
      simp only [preservePixel]
      norm_num
    have hb : bluePixel ⟨255, 255, 255, 255⟩ = ⟨255, 255, 255, 0⟩ := by
      simp only [bluePixel]
      norm_num
    simp [convert_to_white_preserve_shape, convert_blue_to_white, hp, hb]⟩

/-- C4 (amended): under convert_to_white_preserve_shape, a pixel with
all three channels > 245 becomes fully transparent black; any other
pixel gets opacity min(255, (2 × average channel-deficit) TRUNCATED to
an integer) - truncation, not rounding - white when that opacity
exceeds 10 and fully transparent black when it is ≤ 10.  In integers:
opacity = min 255 (2 * (765 - (r + g + b)) / 3). -/
theorem preserve_shape_policy (p : RGBA) (hr : p.r ≤ 255) (hg : p.g ≤ 255) (hb : p.b ≤ 255) :
    (245 < p.r ∧ 245 < p.g ∧ 245 < p.b → preservePixel p = ⟨0, 0, 0, 0⟩)
  ∧ (¬(245 < p.r ∧ 245 < p.g ∧ 245 < p.b) →
      preservePixel p =
        if min 255 (2 * (765 - (p.r + p.g + p.b)) / 3) ≤ 10 then ⟨0, 0, 0, 0⟩
        else ⟨255, 255, 255, min 255 (2 * (765 - (p.r + p.g + p.b)) / 3)⟩) := by
  constructor
  · intro h
    simp [preservePixel, h]
  · intro h
    have hs : p.r + p.g + p.b ≤ 765 := by omega
    simp only [preservePixel, if_neg h]
    have hcast : ((255 : ℚ) - p.r + (255 - (p.g : ℚ)) + (255 - (p.b : ℚ))) / 3 * 2
        = ((2 * (765 - (p.r + p.g + p.b)) : ℕ) : ℚ) / ((3 : ℕ) : ℚ) := by
      rw [Nat.cast_mul, Nat.cast_sub hs]
      push_cast
      ring
    have hfloor : Int.floor (min (255 : ℚ)
          (((255 : ℚ) - p.r + (255 - (p.g : ℚ)) + (255 - (p.b : ℚ))) / 3 * 2))
        = ((min 255 (2 * (765 - (p.r + p.g + p.b)) / 3) : ℕ) : ℤ) := by
      rw [hcast]
      rcases Nat.lt_or_ge (2 * (765 - (p.r + p.g + p.b))) 765 with hc | hc
      · have hqle : ((2 * (765 - (p.r + p.g + p.b)) : ℕ) : ℚ) / ((3 : ℕ) : ℚ) ≤ 255 := by
          rw [div_le_iff₀ (by norm_num : (0 : ℚ) < ((3 : ℕ) : ℚ))]
          have h9 : ((2 * (765 - (p.r + p.g + p.b)) : ℕ) : ℚ) ≤ ((765 : ℕ) : ℚ) := by
            exact_mod_cast Nat.le_of_lt hc
          push_cast at h9 ⊢
          linarith
        have hle : 2 * (765 - (p.r + p.g + p.b)) / 3 ≤ 255 := by omega
        rw [min_eq_right hqle, floor_natCast_div, min_eq_right hle]
      · have hqge : (255 : ℚ) ≤ ((2 * (765 - (p.r + p.g + p.b)) : ℕ) : ℚ) / ((3 : ℕ) : ℚ) := by
          rw [le_div_iff₀ (by norm_num : (0 : ℚ) < ((3 : ℕ) : ℚ))]
          have h9 : ((765 : ℕ) : ℚ) ≤ ((2 * (765 - (p.r + p.g + p.b)) : ℕ) : ℚ) := by
            exact_mod_cast hc
          push_cast at h9 ⊢
          linarith
        have hge : 255 ≤ 2 * (765 - (p.r + p.g + p.b)) / 3 := by omega
        rw [min_eq_left hqge, min_eq_left hge]
        norm_num
    rw [hfloor]
    rcases le_or_lt (min 255 (2 * (765 - (p.r + p.g + p.b)) / 3)) 10 with hm | hm
    · rw [if_neg (by exact_mod_cast not_lt.mpr hm), if_pos hm]
    · rw [if_pos (by exact_mod_cast hm), if_neg (not_le.mpr hm)]
      simp only [RGBA.mk.injEq, true_and]
      omega

/-- C4 witness: the theorem applied to the pixel (244,245,245,255). -/
theorem preserve_shape_policy_witness :
    preservePixel ⟨244, 245, 245, 255⟩ = ⟨255, 255, 255, 20⟩ :=
  ((preserve_shape_policy ⟨244, 245, 245, 255⟩ (by decide) (by decide) (by decide)).2
    (by decide)).trans (by decide)

/-- C4 counterexample: on the pixel (244,245,245) the code's truncation
gives opacity int(62/3 * 2) = int(20.67) = 20, while the claim's
rounding formula gives round(20.67) = 21. -/
theorem preserve_shape_policy_cex :
    preservePixel ⟨244, 245, 245, 255⟩ = ⟨255, 255, 255, 20⟩
  ∧ preservePixelClaim ⟨244, 245, 245, 255⟩ = ⟨255, 255, 255, 21⟩ := by
  constructor
  · simp only [preservePixel]
    norm_num
    decide
  · simp only [preservePixelClaim]
    norm_num [round_eq]
    decide

/-- C5 (amended): under convert_blue_to_white, a pixel whose brightness
(r+g+b)/3 exceeds 240 becomes transparent white; any other pixel
becomes white with alpha = min(255, trunc(trunc(255 − brightness) × 1.5))
- two truncations, not one rounding.  In integers, with
k = (765 − (r+g+b)) / 3, alpha = min 255 (k + k / 2). -/
theorem blue_white_policy (p : RGBA) :
    (720 < p.r + p.g + p.b → bluePixel p = ⟨255, 255, 255, 0⟩)
  ∧ (p.r + p.g + p.b ≤ 720 →
      bluePixel p = ⟨255, 255, 255,
        min 255 ((765 - (p.r + p.g + p.b)) / 3 + ((765 - (p.r + p.g + p.b)) / 3) / 2)⟩) := by
  have hbr : (240 < ((p.r : ℚ) + p.g + p.b) / 3) ↔ 720 < p.r + p.g + p.b := by
    rw [lt_div_iff₀ (by norm_num : (0 : ℚ) < 3)]
    constructor
    · intro h
      have h2 : ((720 : ℕ) : ℚ) < (((p.r + p.g + p.b) : ℕ) : ℚ) := by push_cast at h ⊢; linarith
      exact_mod_cast h2
    · intro h
      have h2 : ((720 : ℕ) : ℚ) < (((p.r + p.g + p.b) : ℕ) : ℚ) := by exact_mod_cast h
      push_cast at h2 ⊢
      linarith
  constructor
  · intro h
    simp only [bluePixel]
    rw [if_pos (hbr.mpr h)]
  · intro h
    have hs : p.r + p.g + p.b ≤ 765 := by omega
    have hnot : ¬ 240 < ((p.r : ℚ) + p.g + p.b) / 3 := by rw [hbr]; omega
    simp only [bluePixel, if_neg hnot]
    have hfl1 : Int.floor ((255 : ℚ) - ((p.r : ℚ) + p.g + p.b) / 3)
        = (((765 - (p.r + p.g + p.b)) / 3 : ℕ) : ℤ) := by
      have he : (255 : ℚ) - ((p.r : ℚ) + p.g + p.b) / 3
          = (((765 - (p.r + p.g + p.b) : ℕ)) : ℚ) / ((3 : ℕ) : ℚ) := by
        rw [Nat.cast_sub hs]
        push_cast
        ring
      rw [he, floor_natCast_div]
    rw [hfl1, Int.cast_natCast]
    have hfl2 : Int.floor ((((765 - (p.r + p.g + p.b)) / 3 : ℕ) : ℚ) * 1.5)
        = ((3 * ((765 - (p.r + p.g + p.b)) / 3) / 2 : ℕ) : ℤ) := by
      have he : ((((765 - (p.r + p.g + p.b)) / 3 : ℕ)) : ℚ) * 1.5
          = (((3 * ((765 - (p.r + p.g + p.b)) / 3) : ℕ)) : ℚ) / ((2 : ℕ) : ℚ) := by
        rw [show (1.5 : ℚ) = 3 / 2 from by norm_num]
        have hm : (((3 * ((765 - (p.r + p.g + p.b)) / 3) : ℕ)) : ℚ)
            = 3 * ((((765 - (p.r + p.g + p.b)) / 3 : ℕ)) : ℚ) := by push_cast; ring
        rw [hm]
        have h2 : (((2 : ℕ)) : ℚ) = 2 := by norm_num
        rw [h2]
        ring
      rw [he, floor_natCast_div]
    rw [hfl2]
    have hfin : (min 255 (((3 * ((765 - (p.r + p.g + p.b)) / 3) / 2 : ℕ) : ℤ))).toNat
        = min 255 ((765 - (p.r + p.g + p.b)) / 3 + ((765 - (p.r + p.g + p.b)) / 3) / 2) := by
      omega
    rw [hfin]

/-- C5 witness: the theorem applied to the pixel (251,250,200,255). -/
theorem blue_white_policy_witness :
    bluePixel ⟨251, 250, 200, 255⟩ = ⟨255, 255, 255,
      min 255 ((765 - (251 + 250 + 200)) / 3 + ((765 - (251 + 250 + 200)) / 3) / 2)⟩ :=
  (blue_white_policy ⟨251, 250, 200, 255⟩).2 (by decide)

/-- C5 counterexample: on the pixel (251,250,200), brightness is 701/3,
so (255 − brightness) × 1.5 = 32 exactly and the claim's formula gives
alpha 32; the code truncates 255 − brightness to 21 first and then
truncates 21 × 1.5 = 31.5 to 31. -/
theorem blue_white_policy_cex :
    bluePixel ⟨251, 250, 200, 255⟩ = ⟨255, 255, 255, 31⟩
  ∧ bluePixelClaim ⟨251, 250, 200, 255⟩ = ⟨255, 255, 255, 32⟩ := by
  constructor
  · simp only [bluePixel]
    norm_num
    decide
  · simp only [bluePixelClaim]
    norm_num [round_eq]
    decide

/-- The interpolated channel stays between the two endpoint channels. -/
lemma gradChannel_bounds (size a b x y : Nat) (hxy : x + y < 2 * size) :
    min a b ≤ gradChannel size a b x y ∧ gradChannel size a b x y ≤ max a b := by
  simp only [gradChannel]
  have hs : (0 : ℚ) < 2 * (size : ℚ) := by
    have hsz : 0 < size := by omega
    have : (0 : ℚ) < (size : ℚ) := by exact_mod_cast hsz
    linarith
  have ht0 : 0 ≤ ((x : ℚ) + y) / (2 * size) := by positivity
  have ht1 : ((x : ℚ) + y) / (2 * size) < 1 := by
    rw [div_lt_one hs]
    have hq : ((x + y : ℕ) : ℚ) < ((2 * size : ℕ) : ℚ) := by exact_mod_cast hxy
    push_cast at hq ⊢
    linarith
  set t : ℚ := ((x : ℚ) + y) / (2 * size) with hts
  rcases le_total a b with hab | hab
  · have habq : (a : ℚ) ≤ (b : ℚ) := by exact_mod_cast hab
    have hE1 : (a : ℚ) ≤ (a : ℚ) * (1 - t) + (b : ℚ) * t := by nlinarith
    have hE2 : (a : ℚ) * (1 - t) + (b : ℚ) * t ≤ (b : ℚ) := by nlinarith
    have hf1 : (a : ℤ) ≤ Int.floor ((a : ℚ) * (1 - t) + (b : ℚ) * t) := by
      rw [Int.le_floor]
      push_cast
      exact hE1
    have hf2 : Int.floor ((a : ℚ) * (1 - t) + (b : ℚ) * t) ≤ (b : ℤ) := by
      have h3 : ((Int.floor ((a : ℚ) * (1 - t) + (b : ℚ) * t) : ℤ) : ℚ) ≤ (b : ℚ) :=
        (Int.floor_le _).trans hE2
      exact_mod_cast h3
    rw [min_eq_left hab, max_eq_right hab]
    omega
  · have habq : (b : ℚ) ≤ (a : ℚ) := by exact_mod_cast hab
    have hE1 : (b : ℚ) ≤ (a : ℚ) * (1 - t) + (b : ℚ) * t := by nlinarith
    have hE2 : (a : ℚ) * (1 - t) + (b : ℚ) * t ≤ (a : ℚ) := by nlinarith
    have hf1 : (b : ℤ) ≤ Int.floor ((a : ℚ) * (1 - t) + (b : ℚ) * t) := by
      rw [Int.le_floor]
      push_cast
      exact hE1
    have hf2 : Int.floor ((a : ℚ) * (1 - t) + (b : ℚ) * t) ≤ (a : ℤ) := by
      have h3 : ((Int.floor ((a : ℚ) * (1 - t) + (b : ℚ) * t) : ℤ) : ℚ) ≤ (a : ℚ) :=
        (Int.floor_le _).trans hE2
      exact_mod_cast h3
    rw [min_eq_right hab, max_eq_left hab]
    omega

/-- At (0,0) the ratio is 0 and the channel is exactly the start value. -/
lemma gradChannel_zero (size a b : Nat) : gradChannel size a b 0 0 = a := by
  simp only [gradChannel]
  norm_num

/-- C6: every pixel of create_gradient at (x,y) is exactly the linear
interpolation of the endpoint colours at ratio t = (x+y)/(2·size),
truncated to integer channels (gradPixel); pixel (0,0) equals the start
colour exactly; and every channel lies between the corresponding
channels of the two endpoints (no overshoot). -/
theorem gradient_pixels (size : Nat) (c0 c1 : RGB) (x y : Nat)
    (hs : 1 ≤ size) (hx : x < size) (hy : y < size) :
    pixelAt (create_gradient size c0 c1) x y = gradPixel size c0 c1 x y
  ∧ pixelAt (create_gradient size c0 c1) 0 0 = c0
  ∧ min c0.r c1.r ≤ (gradPixel size c0 c1 x y).r
  ∧ (gradPixel size c0 c1 x y).r ≤ max c0.r c1.r
  ∧ min c0.g c1.g ≤ (gradPixel size c0 c1 x y).g
  ∧ (gradPixel size c0 c1 x y).g ≤ max c0.g c1.g
  ∧ min c0.b c1.b ≤ (gradPixel size c0 c1 x y).b
  ∧ (gradPixel size c0 c1 x y).b ≤ max c0.b c1.b := by
  have hxy : x + y < 2 * size := by omega
  have hpix : pixelAt (create_gradient size c0 c1) x y = gradPixel size c0 c1 x y := by
    unfold pixelAt create_gradient
    rw [getD_range_map _ size y _ hy, getD_range_map _ size x _ hx]
  have hcorner : pixelAt (create_gradient size c0 c1) 0 0 = c0 := by
    unfold pixelAt create_gradient
    rw [getD_range_map _ size 0 _ (by omega), getD_range_map _ size 0 _ (by omega)]
    simp only [gradPixel, gradChannel_zero]
  refine ⟨hpix, hcorner, ?_, ?_, ?_, ?_, ?_, ?_⟩
  · exact (gradChannel_bounds size c0.r c1.r x y hxy).1
  · exact (gradChannel_bounds size c0.r c1.r x y hxy).2
  · exact (gradChannel_bounds size c0.g c1.g x y hxy).1
  · exact (gradChannel_bounds size c0.g c1.g x y hxy).2
  · exact (gradChannel_bounds size c0.b c1.b x y hxy).1
  · exact (gradChannel_bounds size c0.b c1.b x y hxy).2

/-- C6 witness: the theorem applied at size 2 with the repository's
gradient endpoints, at pixel (1,1). -/
theorem gradient_pixels_witness :
    pixelAt (create_gradient 2 GRADIENT_START GRADIENT_END) 1 1
      = gradPixel 2 GRADIENT_START GRADIENT_END 1 1 :=
  (gradient_pixels 2 GRADIENT_START GRADIENT_END 1 1 (by decide) (by decide) (by decide)).1

/-- Case analysis of one convert_blue_to_white pixel: either fully
transparent or pure white with positive alpha. -/
lemma bluePixel_inv (p : RGBA) :
    (bluePixel p).a = 0 ∨
      ((bluePixel p).r = 255 ∧ (bluePixel p).g = 255 ∧ (bluePixel p).b = 255
        ∧ 0 < (bluePixel p).a) := by
  by_cases h : (240 : ℚ) < ((p.r : ℚ) + p.g + p.b) / 3
  · left
    simp [bluePixel, h]
  · right
    simp only [bluePixel, if_neg h]
    refine ⟨trivial, trivial, trivial, ?_⟩
    have h1 : (15 : ℤ) ≤ Int.floor ((255 : ℚ) - ((p.r : ℚ) + p.g + p.b) / 3) := by
      rw [Int.le_floor]
      have hb : ((p.r : ℚ) + p.g + p.b) / 3 ≤ 240 := not_lt.mp h
      push_cast
      linarith
    have h2 : (22 : ℤ) ≤ Int.floor
        (((Int.floor ((255 : ℚ) - ((p.r : ℚ) + p.g + p.b) / 3) : ℤ) : ℚ) * 1.5) := by
      rw [Int.le_floor]
      have h1q : (15 : ℚ) ≤ ((Int.floor ((255 : ℚ) - ((p.r : ℚ) + p.g + p.b) / 3) : ℤ) : ℚ) := by
        exact_mod_cast h1
      rw [show (1.5 : ℚ) = 3 / 2 from by norm_num]
      push_cast
      linarith
    have h3 : (22 : ℤ) ≤ min 255 (Int.floor
        (((Int.floor ((255 : ℚ) - ((p.r : ℚ) + p.g + p.b) / 3) : ℤ) : ℚ) * 1.5)) :=
      le_min (by norm_num) h2
    omega

/-- Case analysis of one convert_to_white_preserve_shape pixel: either
fully transparent or pure white with positive alpha. -/
lemma preservePixel_inv (p : RGBA) :
    (preservePixel p).a = 0 ∨
      ((preservePixel p).r = 255 ∧ (preservePixel p).g = 255 ∧ (preservePixel p).b = 255
        ∧ 0 < (preservePixel p).a) := by
  by_cases h : 245 < p.r ∧ 245 < p.g ∧ 245 < p.b
  · left
    simp [preservePixel, h]
  · simp only [preservePixel, if_neg h]
    by_cases h10 : 10 < Int.floor (min (255 : ℚ)
        (((255 : ℚ) - p.r + (255 - (p.g : ℚ)) + (255 - (p.b : ℚ))) / 3 * 2))
    · right
      rw [if_pos h10]
      refine ⟨rfl, rfl, rfl, ?_⟩
      dsimp only
      omega
    · left
      rw [if_neg h10]

/-- C7: both recolouring passes keep the image's height and every row's
width, and every output pixel is either fully transparent (alpha
exactly 0) or pure white (255,255,255) with alpha strictly positive. -/
theorem recolor_output_invariant (img : List (List RGBA)) :
    (convert_blue_to_white img).length = img.length
  ∧ (convert_to_white_preserve_shape img).length = img.length
  ∧ (∀ i, ((convert_blue_to_white img).getD i []).length = (img.getD i []).length)
  ∧ (∀ i, ((convert_to_white_preserve_shape img).getD i []).length = (img.getD i []).length)
  ∧ (∀ row, row ∈ convert_blue_to_white img → ∀ q, q ∈ row →
      q.a = 0 ∨ (q.r = 255 ∧ q.g = 255 ∧ q.b = 255 ∧ 0 < q.a))
  ∧ (∀ row, row ∈ convert_to_white_preserve_shape img → ∀ q, q ∈ row →
      q.a = 0 ∨ (q.r = 255 ∧ q.g = 255 ∧ q.b = 255 ∧ 0 < q.a)) := by
  refine ⟨by simp [convert_blue_to_white], by simp [convert_to_white_preserve_shape],
    fun i => getD_map_map_length img bluePixel i,
    fun i => getD_map_map_length img preservePixel i, ?_, ?_⟩
  · intro row hrow q hq
    rcases List.mem_map.mp hrow with ⟨r0, _, hr0⟩
    subst hr0
    rcases List.mem_map.mp hq with ⟨p0, _, hp0⟩
    subst hp0
    exact bluePixel_inv p0
  · intro row hrow q hq
    rcases List.mem_map.mp hrow with ⟨r0, _, hr0⟩
    subst hr0
    rcases List.mem_map.mp hq with ⟨p0, _, hp0⟩
    subst hp0
    exact preservePixel_inv p0

/-- C7 witness: the invariant applied to the one-pixel image [[(0,0,0,255)]]
and the pixel its blue-to-white pass produces. -/
theorem recolor_output_invariant_witness :
    (bluePixel ⟨0, 0, 0, 255⟩).a = 0 ∨
      ((bluePixel ⟨0, 0, 0, 255⟩).r = 255 ∧ (bluePixel ⟨0, 0, 0, 255⟩).g = 255
        ∧ (bluePixel ⟨0, 0, 0, 255⟩).b = 255 ∧ 0 < (bluePixel ⟨0, 0, 0, 255⟩).a) :=
  (recolor_output_invariant [[⟨0, 0, 0, 255⟩]]).2.2.2.2.1 [bluePixel ⟨0, 0, 0, 255⟩]
    (List.mem_singleton_self _) (bluePixel ⟨0, 0, 0, 255⟩) (List.mem_singleton_self _)

/-- Splitting a reversed count-down range at its head. -/
lemma range_reverse_succ (a n : Nat) :
    (List.range' a (n + 1)).reverse = (a + n) :: (List.range' a n).reverse := by
  rw [List.range'_1_concat, List.reverse_append]
  simp

/-- The scan over [a+n-1, ..., a] finds nothing iff no row in
[a, a+n) is content. -/
lemma scan_none_iff (img : List (List RGB)) (a n : Nat) :
    scanFrom img ((List.range' a n).reverse) = none ↔
      ∀ y, a ≤ y → y < a + n → ¬ rowIsContent (img.getD y []) := by
  induction n with
  | zero =>
      simp only [List.range', List.reverse_nil, scanFrom]
      constructor
      · intro _ y h1 h2
        exact absurd h2 (by omega)
      · intro _
        trivial
  | succ m ih =>
      rw [range_reverse_succ]
      simp only [scanFrom]
      by_cases h : rowIsContent (img.getD (a + m) [])
      · rw [if_pos h]
        constructor
        · intro hc
          cases hc
        · intro hall
          exact absurd h (hall (a + m) (by omega) (by omega))
      · rw [if_neg h, ih]
        constructor
        · intro hall y h1 h2
          rcases Nat.lt_or_ge y (a + m) with hy | hy
          · exact hall y h1 hy
          · have hey : y = a + m := by omega
            subst hey
            exact h
        · intro hall y h1 h2
          exact hall y h1 (by omega)

/-- The scan over [a+n-1, ..., a] returns b iff b = y + 1 for the
LARGEST content row y in [a, a+n) (every row strictly above y and
below a+n being non-content). -/
lemma scan_some_iff (img : List (List RGB)) (a n b : Nat) :
    scanFrom img ((List.range' a n).reverse) = some b ↔
      ∃ y, a ≤ y ∧ y < a + n ∧ rowIsContent (img.getD y []) ∧ b = y + 1 ∧
        ∀ z, y < z → z < a + n → ¬ rowIsContent (img.getD z []) := by
  induction n with
  | zero =>
      simp only [List.range', List.reverse_nil, scanFrom]
      constructor
      · intro hc
        cases hc
      · rintro ⟨y, h1, h2, _⟩
        exact absurd h2 (by omega)
  | succ m ih =>
      rw [range_reverse_succ]
      simp only [scanFrom]
      by_cases h : rowIsContent (img.getD (a + m) [])
      · rw [if_pos h]
        constructor
        · intro hb
          have hb2 : b = a + m + 1 := by
            have := Option.some.inj hb
            omega
          exact ⟨a + m, by omega, by omega, h, hb2,
            fun z hz1 hz2 => absurd hz1 (by omega)⟩
        · rintro ⟨y, hy1, hy2, hyc, hb, hall⟩
          have hym : y = a + m := by
            by_contra hne
            have hylt : y < a + m := by omega
            exact hall (a + m) (by omega) (by omega) h
          subst hym
          rw [hb]
      · rw [if_neg h, ih]
        constructor
        · rintro ⟨y, hy1, hy2, hyc, hb, hall⟩
          refine ⟨y, hy1, by omega, hyc, hb, fun z hz1 hz2 => ?_⟩
          rcases Nat.lt_or_ge z (a + m) with hz | hz
          · exact hall z hz1 hz
          · have hez : z = a + m := by omega
            subst hez
            exact h
        · rintro ⟨y, hy1, hy2, hyc, hb, hall⟩
          have hym : y ≠ a + m := fun he => h (he ▸ hyc)
          exact ⟨y, hy1, by omega, hyc, hb, fun z hz1 hz2 => hall z hz1 (by omega)⟩

/-- C1 (amended): when the bottom row is white the scan tests the rows
with index strictly between height − 100 and height (at most 99 rows;
row height − 100 itself, and row 0 when height ≤ 100, are never
tested).  It returns y + 1 for the bottom-most tested row y that is
content, and silently finds nothing - leaving the image unchanged and
returning False - exactly when no TESTED row is content. -/
theorem trimmer_scan_window (img : List (List RGB)) (tw th : Nat) (hh : 1 ≤ img.length) :
    (findContentBottom img = none ↔
      ∀ y, img.length - 100 < y → y < img.length → ¬ rowIsContent (img.getD y []))
  ∧ (∀ b, findContentBottom img = some b ↔
      ∃ y, img.length - 100 < y ∧ y < img.length ∧ rowIsContent (img.getD y []) ∧ b = y + 1 ∧
        ∀ z, y < z → z < img.length → ¬ rowIsContent (img.getD z []))
  ∧ (findContentBottom img = none → detectAndFill tw th img = (false, img)) := by
  have hsum : (img.length - 100 + 1) + (img.length - 1 - (img.length - 100)) = img.length := by
    omega
  have key1 : findContentBottom img = none ↔
      ∀ y, img.length - 100 + 1 ≤ y →
        y < (img.length - 100 + 1) + (img.length - 1 - (img.length - 100)) →
        ¬ rowIsContent (img.getD y []) :=
    scan_none_iff img (img.length - 100 + 1) (img.length - 1 - (img.length - 100))
  have key2 : ∀ b, findContentBottom img = some b ↔
      ∃ y, img.length - 100 + 1 ≤ y ∧
        y < (img.length - 100 + 1) + (img.length - 1 - (img.length - 100)) ∧
        rowIsContent (img.getD y []) ∧ b = y + 1 ∧
        ∀ z, y < z → z < (img.length - 100 + 1) + (img.length - 1 - (img.length - 100)) →
          ¬ rowIsContent (img.getD z []) :=
    fun b => scan_some_iff img (img.length - 100 + 1) (img.length - 1 - (img.length - 100)) b
  rw [hsum] at key1 key2
  refine ⟨?_, ?_, ?_⟩
  · rw [key1]
    constructor
    · intro hall y h1 h2
      exact hall y (by omega) h2
    · intro hall y h1 h2
      exact hall y (by omega) h2
  · intro b
    rw [key2 b]
    constructor
    · rintro ⟨y, h1, h2, h3, h4, h5⟩
      exact ⟨y, by omega, h2, h3, h4, h5⟩
    · rintro ⟨y, h1, h2, h3, h4, h5⟩
      exact ⟨y, by omega, h2, h3, h4, h5⟩
  · intro hnone
    simp [detectAndFill, hnone]

/-- C1 witness: a 1×2 all-white image - bottom row white, scan finds
nothing, the trimmer reports no change and leaves the image as is. -/
theorem trimmer_scan_window_witness :
    detectAndFill 1 2 [[(⟨255, 255, 255⟩ : RGB)], [⟨255, 255, 255⟩]]
      = (false, [[(⟨255, 255, 255⟩ : RGB)], [⟨255, 255, 255⟩]]) :=
  (trimmer_scan_window [[⟨255, 255, 255⟩], [⟨255, 255, 255⟩]] 1 2 (by decide)).2.2 (by decide)

/-- C1 counterexample: in the 101-row image cImgA the bottom row is
white and row 1 - which lies inside the claim's 100-row window, being
the 100th row counting up from the bottom - is content; the claim
therefore demands boundary 2 and a modification, but the code's scan
stops before row height − 100, finds nothing, and changes nothing. -/
theorem trimmer_scan_window_cex :
    cImgA.length = 101
  ∧ bottomIsWhite (cImgA.getD 100 [])
  ∧ cImgA.length - 100 ≤ 1
  ∧ rowIsContent (cImgA.getD 1 [])
  ∧ findContentBottom cImgA = none
  ∧ detectAndFill 1 101 cImgA = (false, cImgA) := by decide

/-- C9: whichever of the two no-op conditions holds on the normalized
image - bottom row not white, or no content boundary found by the scan
- the trimmer returns False (a status, not an error: the function is
total) and performs no fill write-back: the file's final contents are
exactly the phase-1 result, which is the untouched input image whenever
the input already has the target dimensions. -/
theorem trimmer_noop_conditions (resample : Nat → Nat → List (List RGB) → List (List RGB))
    (tw th : Nat) (img : List (List RGB))
    (hnoop : ¬ bottomIsWhite ((normalizeDims resample tw th img).getD
                ((normalizeDims resample tw th img).length - 1) [])
           ∨ findContentBottom (normalizeDims resample tw th img) = none) :
    remove_white_space resample tw th img = (false, normalizeDims resample tw th img)
  ∧ ((img.getD 0 []).length = tw ∧ img.length = th → normalizeDims resample tw th img = img) := by
  constructor
  · unfold remove_white_space
    rcases hnoop with h | h
    · simp only [detectAndFill]
      rw [if_neg h]
    · by_cases hw : bottomIsWhite ((normalizeDims resample tw th img).getD
          ((normalizeDims resample tw th img).length - 1) [])
      · simp only [detectAndFill]
        rw [if_pos hw, h]
      · simp only [detectAndFill]
        rw [if_neg hw]
  · rintro ⟨h1, h2⟩
    unfold normalizeDims
    rw [if_neg (show ¬((img.getD 0 []).length ≠ tw ∨ img.length ≠ th) from by
      push_neg
      exact ⟨h1, h2⟩)]

/-- C9 witness: a 1×1 black image at target dimensions 1×1 - the
bottom row is not white, the trimmer returns False and the file is the
unchanged input. -/
theorem trimmer_noop_conditions_witness :
    remove_white_space (fun _ _ i => i) 1 1 [[(⟨0, 0, 0⟩ : RGB)]]
      = (false, normalizeDims (fun _ _ i => i) 1 1 [[(⟨0, 0, 0⟩ : RGB)]]) :=
  (trimmer_noop_conditions (fun _ _ i => i) 1 1 [[⟨0, 0, 0⟩]] (Or.inl (by decide))).1

/-- pasteMask keeps the number of canvas rows. -/
lemma pasteMask_length (canvas logo : List (List RGBA)) (ox oy : Nat) :
    (pasteMask canvas logo ox oy).length = canvas.length := by
  simp [pasteMask]

/-- pasteMask keeps every canvas row's width. -/
lemma pasteMask_getD_length (canvas logo : List (List RGBA)) (ox oy i : Nat) :
    ((pasteMask canvas logo ox oy).getD i []).length = (canvas.getD i []).length := by
  rcases Nat.lt_or_ge i canvas.length with h | h
  · unfold pasteMask
    rw [getD_range_map _ _ _ _ h]
    simp
  · have h1 : (pasteMask canvas logo ox oy)[i]? = none := by
      rw [List.getElem?_eq_none_iff, pasteMask_length]
      exact h
    have h2 : canvas[i]? = none := by
      rw [List.getElem?_eq_none_iff]
      exact h
    simp [List.getD_eq_getElem?_getD, h1, h2]

/-- C8: the composited icon has exactly the canvas's dimensions; the
logo is pasted at offsets floor((iconSize − logo width)/2),
floor((iconSize − logo height)/2); and every pixel outside that pasted
bounding box is pixel-identical to the original background (the final
image is a plain 3-channel RGB image - the type of compositeIcon -
with the alpha band dropped). -/
theorem compositor_frame (iconSize : Nat) (canvas : List (List RGB)) (logo : List (List RGBA))
    (x y : Nat) (hy : y < canvas.length) (hx : x < (canvas.getD y []).length)
    (hrect : ∀ i, i < logo.length → (logo.getD i []).length = (logo.getD 0 []).length)
    (hout : ¬((iconSize - logo.length) / 2 ≤ y
              ∧ y < (iconSize - logo.length) / 2 + logo.length
              ∧ (iconSize - (logo.getD 0 []).length) / 2 ≤ x
              ∧ x < (iconSize - (logo.getD 0 []).length) / 2 + (logo.getD 0 []).length)) :
    (compositeIcon iconSize canvas logo).length = canvas.length
  ∧ (∀ j, ((compositeIcon iconSize canvas logo).getD j []).length = (canvas.getD j []).length)
  ∧ pixelAt (compositeIcon iconSize canvas logo) x y = pixelAt canvas x y := by
  have hClen : (canvas.map (fun row => row.map toRGBA)).length = canvas.length := by simp
  have hCrow : ∀ j, ((canvas.map (fun row => row.map toRGBA)).getD j []).length
      = (canvas.getD j []).length := fun j => getD_map_map_length canvas toRGBA j
  refine ⟨?_, ?_, ?_⟩
  · simp only [compositeIcon, toRGBImage]
    rw [List.length_map, pasteMask_length]
    exact hClen
  · intro j
    simp only [compositeIcon, toRGBImage]
    rw [getD_map_map_length, pasteMask_getD_length]
    exact hCrow j
  · simp only [compositeIcon, toRGBImage, pixelAt]
    have hyP : y < (pasteMask (canvas.map (fun row => row.map toRGBA)) logo
        ((iconSize - (logo.getD 0 []).length) / 2) ((iconSize - logo.length) / 2)).length := by
      rw [pasteMask_length, hClen]
      exact hy
    rw [getD_map_getD _ _ y hyP]
    have hxP : x < ((pasteMask (canvas.map (fun row => row.map toRGBA)) logo
        ((iconSize - (logo.getD 0 []).length) / 2) ((iconSize - logo.length) / 2)).getD y []).length := by
      rw [pasteMask_getD_length, hCrow]
      exact hx
    rw [getD_map_elem _ _ x hxP (⟨0, 0, 0, 0⟩ : RGBA) (⟨0, 0, 0⟩ : RGB)]
    have hyC : y < (canvas.map (fun row => row.map toRGBA)).length := by
      rw [hClen]
      exact hy
    have hrow : (pasteMask (canvas.map (fun row => row.map toRGBA)) logo
        ((iconSize - (logo.getD 0 []).length) / 2) ((iconSize - logo.length) / 2)).getD y []
        = (List.range ((canvas.map (fun row => row.map toRGBA)).getD y []).length).map
            (fun x0 =>
              if (iconSize - logo.length) / 2 ≤ y
                  ∧ y < (iconSize - logo.length) / 2 + logo.length
                  ∧ (iconSize - (logo.getD 0 []).length) / 2 ≤ x0
                  ∧ x0 < (iconSize - (logo.getD 0 []).length) / 2
                      + (logo.getD (y - (iconSize - logo.length) / 2) []).length then
                blendPixel (((canvas.map (fun row => row.map toRGBA)).getD y []).getD x0 ⟨0, 0, 0, 0⟩)
                  ((logo.getD (y - (iconSize - logo.length) / 2) []).getD
                    (x0 - (iconSize - (logo.getD 0 []).length) / 2) ⟨0, 0, 0, 0⟩)
              else ((canvas.map (fun row => row.map toRGBA)).getD y []).getD x0 ⟨0, 0, 0, 0⟩) := by
      unfold pasteMask
      rw [getD_range_map _ _ _ _ hyC]
    rw [hrow]
    have hxC : x < ((canvas.map (fun row => row.map toRGBA)).getD y []).length := by
      rw [hCrow]
      exact hx
    rw [getD_range_map _ _ _ _ hxC]
    have hcond : ¬((iconSize - logo.length) / 2 ≤ y
        ∧ y < (iconSize - logo.length) / 2 + logo.length
        ∧ (iconSize - (logo.getD 0 []).length) / 2 ≤ x
        ∧ x < (iconSize - (logo.getD 0 []).length) / 2
            + (logo.getD (y - (iconSize - logo.length) / 2) []).length) := by
      rintro ⟨c1, c2, c3, c4⟩
      apply hout
      have hlen : (logo.getD (y - (iconSize - logo.length) / 2) []).length
          = (logo.getD 0 []).length := hrect (y - (iconSize - logo.length) / 2) (by omega)
      rw [hlen] at c4
      exact ⟨c1, c2, c3, c4⟩
    rw [if_neg hcond, getD_map_getD canvas toRGBA y hy,
      getD_map_elem _ toRGBA x hx (⟨0, 0, 0⟩ : RGB) (⟨0, 0, 0, 0⟩ : RGBA)]
    rfl

/-- C8 witness: a 2×2 canvas with a 1×1 logo pasted at offset (0,0);
the pixel (1,1) lies outside the pasted box and is unchanged. -/
theorem compositor_frame_witness :
    pixelAt (compositeIcon 2 [[⟨1, 2, 3⟩, ⟨4, 5, 6⟩], [⟨7, 8, 9⟩, ⟨10, 11, 12⟩]]
        [[⟨0, 0, 0, 255⟩]]) 1 1
      = pixelAt [[⟨1, 2, 3⟩, ⟨4, 5, 6⟩], [⟨7, 8, 9⟩, ⟨10, 11, 12⟩]] 1 1 :=
  (compositor_frame 2 [[⟨1, 2, 3⟩, ⟨4, 5, 6⟩], [⟨7, 8, 9⟩, ⟨10, 11, 12⟩]] [[⟨0, 0, 0, 255⟩]]
    1 1 (by decide) (by decide) (by decide) (by decide)).2.2
